import Mathlib

/-!
Shallow embedding of the ts-raycasting renderer (src/index.ts).

The TypeScript code computes with IEEE doubles; we embed its arithmetic in an
arbitrary linear ordered field with a floor, instantiated at `ℚ` for the
executable ray-traversal functions (`snap`, `hittingCell`, `rayStep`,
`castRay`) and at `ℝ` for the parts that use trigonometry and square roots
(`Vector2.fromAngle`, `Vector2.norm`, `Player.fovRange`, the per-frame
movement integrator `frame`).  The `while` loop of `castRay` is embedded with
an explicit fuel parameter: `none` means the loop has not yet exited after
that many iterations.
-/

namespace Raycasting

variable {α : Type} [LinearOrderedField α] [FloorRing α]

/-- 2D vector with both components in `α` (source: `class Vector2`). -/
structure Vector2 (α : Type) where
  x : α
  y : α
deriving DecidableEq, Repr

/-- `const EPS = 1e-7`. -/
def EPS : α := 1 / 10000000

/-- `const NEAR_CLIPPING_PLANE = EPS`. -/
def NEAR_CLIPPING_PLANE : α := EPS

/-- `const FAR_CLIPPING_PLANE = 10.0`. -/
def FAR_CLIPPING_PLANE : α := 10

/-- `const PLAYER_SPEED = 2.5`. -/
def PLAYER_SPEED : α := 5 / 2

namespace Vector2

/-- `Vector2.zero()`. -/
def zero : Vector2 α := ⟨0, 0⟩

/-- `add(that)`. -/
def add (a b : Vector2 α) : Vector2 α := ⟨a.x + b.x, a.y + b.y⟩

/-- `sub(that)`. -/
def sub (a b : Vector2 α) : Vector2 α := ⟨a.x - b.x, a.y - b.y⟩

/-- `mul(that)`. -/
def mul (a b : Vector2 α) : Vector2 α := ⟨a.x * b.x, a.y * b.y⟩

/-- `div(that)`. -/
def div (a b : Vector2 α) : Vector2 α := ⟨a.x / b.x, a.y / b.y⟩

/-- `sqrLength()`. -/
def sqrLength (a : Vector2 α) : α := a.x * a.x + a.y * a.y

/-- `scale(value)`. -/
def scale (a : Vector2 α) (value : α) : Vector2 α := ⟨a.x * value, a.y * value⟩

/-- `rot90()`. -/
def rot90 (a : Vector2 α) : Vector2 α := ⟨-a.y, a.x⟩

/-- `sqrDistanceTo(that)`. -/
def sqrDistanceTo (a b : Vector2 α) : α := (b.sub a).sqrLength

/-- `lerp(that, alpha)`. -/
def lerp (a b : Vector2 α) (alpha : α) : Vector2 α := ((b.sub a).scale alpha).add a

/-- `dot(that)`. -/
def dot (a b : Vector2 α) : α := a.x * b.x + a.y * b.y

end Vector2

/-- `Math.sign` (on non-NaN inputs). -/
def mathSign (a : α) : α := if 0 < a then 1 else if a < 0 then -1 else 0

/-- `function snap(x, dx)`. -/
def snap (x dx : α) : α :=
  if 0 < dx then (⌈x + EPS⌉ : ℤ)
  else if dx < 0 then (⌊x - EPS⌋ : ℤ)
  else x

/-- `function hittingCell(p1, p2)`: biased floor of the current tip `p2`. -/
def hittingCell (p1 p2 : Vector2 α) : Vector2 α :=
  let d := p2.sub p1
  ⟨((⌊p2.x + mathSign d.x * EPS⌋ : ℤ) : α), ((⌊p2.y + mathSign d.y * EPS⌋ : ℤ) : α)⟩

/-- The vertical-grid-line candidate `p3` built inside `rayStep` when `d.x ≠ 0`
(point with `x3 = snap(p2.x, d.x)` on the line `y = k*x + c`). -/
def rayStepVert (p1 p2 : Vector2 α) : Vector2 α :=
  let d := p2.sub p1
  let k := d.y / d.x
  let c := p1.y - k * p1.x
  let x3 := snap p2.x d.x
  ⟨x3, k * x3 + c⟩

/-- The horizontal-grid-line candidate `p3t` built inside `rayStep` when
`d.x ≠ 0` and `k ≠ 0` (point with `y3 = snap(p2.y, d.y)` on the same line). -/
def rayStepHoriz (p1 p2 : Vector2 α) : Vector2 α :=
  let d := p2.sub p1
  let k := d.y / d.x
  let c := p1.y - k * p1.x
  let y3 := snap p2.y d.y
  ⟨(y3 - c) / k, y3⟩

/-- `function rayStep(p1, p2)`. -/
def rayStep (p1 p2 : Vector2 α) : Vector2 α :=
  let d := p2.sub p1
  if d.x ≠ 0 then
    let k := d.y / d.x
    let p3 := rayStepVert p1 p2
    if k ≠ 0 then
      let p3t := rayStepHoriz p1 p2
      if p2.sqrDistanceTo p3 > p2.sqrDistanceTo p3t then p3t else p3
    else p3
  else
    ⟨p2.x, snap p2.y (p2.sub p1).y⟩

/-- True when `rayStep` returns a point whose `x` was snapped to a grid line
(the vertical-grid-line candidate); false when the returned point had its `y`
snapped. Mirrors the branch structure of `rayStep`. -/
def rayStepTargetsX (p1 p2 : Vector2 α) : Bool :=
  let d := p2.sub p1
  if d.x ≠ 0 then
    if d.y / d.x ≠ 0 then
      !(p2.sqrDistanceTo (rayStepVert p1 p2) > p2.sqrDistanceTo (rayStepHoriz p1 p2))
    else true
  else false

/-- A scene cell: `null` (empty), a `Color`, or a texture image reference
(source: `type Scene = Array<Array<Color | HTMLImageElement | null>>`). -/
inductive Cell where
  | empty : Cell
  | color (r g b a : ℚ) : Cell
  | texture (id : Nat) : Cell
deriving DecidableEq, Repr

/-- `type Scene`: a list of rows of cells. -/
abbrev Scene := List (List Cell)

/-- `Number.MIN_VALUE`, the smallest positive IEEE double, `2⁻¹⁰⁷⁴`
(the denominator is written as an explicit hexadecimal numeral so that the
definition evaluates without deep recursion). -/
def jsMinValue : α :=
  1 / 0x40000000000000000000000000000000000000000000000000000000000000000000000000000000000000000000000000000000000000000000000000000000000000000000000000000000000000000000000000000000000000000000000000000000000000000000000000000000000000000000000000000000000000000000000000000

/-- `function sceneSize(scene)`: height is the row count, width is the
maximum row length (starting the running maximum at `Number.MIN_VALUE`). -/
def sceneSize (scene : Scene) : Vector2 α :=
  ⟨scene.foldl (fun acc row => max acc (row.length : α)) jsMinValue,
   (scene.length : α)⟩

/-- `function insideScene(scene, p)`. -/
def insideScene (scene : Scene) (p : Vector2 α) : Bool :=
  let size : Vector2 α := sceneSize scene
  decide (0 ≤ p.x) && decide (p.x < size.x) && decide (0 ≤ p.y) && decide (p.y < size.y)

/-- JavaScript array lookup `scene[iy][ix]`: `some cell` when both indexes are
in range, `none` (JS `undefined`) otherwise.  The callers in the source only
index after a bounds test that guarantees non-negative indexes. -/
def sceneCell (scene : Scene) (ix iy : ℤ) : Option Cell :=
  if 0 ≤ ix ∧ 0 ≤ iy then (scene.get? iy.toNat).bind (fun row => row.get? ix.toNat)
  else none

/-- The `while` loop of `castRay`, with fuel: `start` is the saved initial
`p1`; each loop pass tests `start.sqrDistanceTo(p1) < FAR_CLIPPING_PLANE ** 2`,
breaks (returning the tip `p2`) when the hitting cell is inside the scene and
not `null`, and otherwise advances `(p1, p2) ← (p2, rayStep p1 p2)`.
`none` means the loop has not exited within `fuel` passes. -/
def castRayGo (scene : Scene) (start : Vector2 α) :
    Nat → Vector2 α → Vector2 α → Option (Vector2 α)
  | 0, p1, p2 =>
    if start.sqrDistanceTo p1 < FAR_CLIPPING_PLANE ^ 2 then none else some p2
  | fuel + 1, p1, p2 =>
    if start.sqrDistanceTo p1 < FAR_CLIPPING_PLANE ^ 2 then
      let c := hittingCell p1 p2
      if insideScene scene c && !(sceneCell scene ⌊c.x⌋ ⌊c.y⌋ == some Cell.empty) then
        some p2
      else
        castRayGo scene start fuel p2 (rayStep p1 p2)
    else some p2

/-- `function castRay(scene, p1, p2)` (`start` is initialized to `p1`). -/
def castRay (scene : Scene) (fuel : Nat) (p1 p2 : Vector2 α) : Option (Vector2 α) :=
  castRayGo scene p1 fuel p1 p2

/-- `const FOV = Math.PI / 2`. -/
noncomputable def FOV : ℝ := Real.pi / 2

/-- `Vector2.fromAngle(angle)`. -/
noncomputable def Vector2.fromAngle (angle : ℝ) : Vector2 ℝ :=
  ⟨Real.cos angle, Real.sin angle⟩

/-- `length()`. -/
noncomputable def Vector2.length (a : Vector2 ℝ) : ℝ := Real.sqrt a.sqrLength

/-- `norm()`: the zero vector when the length is zero, the components divided
by the length otherwise. -/
noncomputable def Vector2.norm (a : Vector2 ℝ) : Vector2 ℝ :=
  if a.length = 0 then Vector2.zero else ⟨a.x / a.length, a.y / a.length⟩

/-- `class Player`: position plus heading angle in radians. -/
structure Player where
  position : Vector2 ℝ
  direction : ℝ

/-- `Player.fovRange()`: the two field-of-view edge points on the near plane. -/
noncomputable def Player.fovRange (player : Player) : Vector2 ℝ × Vector2 ℝ :=
  let len := Real.tan (FOV * 0.5) * NEAR_CLIPPING_PLANE
  let p := player.position.add ((Vector2.fromAngle player.direction).scale NEAR_CLIPPING_PLANE)
  (p.sub (((p.sub player.position).rot90).norm.scale len),
   p.add (((p.sub player.position).rot90).norm.scale len))

/-- The strip geometry computed per column in `renderScene` from the hit
point `p`: `v = p - position`, `d = fromAngle(direction)`,
`stripHeight = canvasHeight / v·d`, drawn with its top edge at
`(canvasHeight - stripHeight) / 2`.  Returns `(stripHeight, top)`. -/
noncomputable def renderStripGeometry (canvasHeight : ℝ) (player : Player) (p : Vector2 ℝ) :
    ℝ × ℝ :=
  let v := p.sub player.position
  let d := Vector2.fromAngle player.direction
  let stripHeight := canvasHeight / v.dot d
  (stripHeight, (canvasHeight - stripHeight) / 2)

/-- The six boolean input flags read by the per-frame movement integrator. -/
structure Inputs where
  movingForward : Bool
  movingBackward : Bool
  movingLeft : Bool
  movingRight : Bool
  turningLeft : Bool
  turningRight : Bool
deriving DecidableEq, Repr

/-- The velocity vector composed from the movement flags in `frame`
(each active flag adds or subtracts a `PLAYER_SPEED`-scaled vector along or
perpendicular to the current heading). -/
noncomputable def frameVelocity (inp : Inputs) (direction : ℝ) : Vector2 ℝ :=
  let v : Vector2 ℝ := Vector2.zero
  let v := if inp.movingForward then v.add ((Vector2.fromAngle direction).scale PLAYER_SPEED) else v
  let v := if inp.movingBackward then v.sub ((Vector2.fromAngle direction).scale PLAYER_SPEED) else v
  let v := if inp.movingLeft then v.sub (((Vector2.fromAngle direction).scale PLAYER_SPEED).rot90) else v
  if inp.movingRight then v.add (((Vector2.fromAngle direction).scale PLAYER_SPEED).rot90) else v

/-- The angular velocity composed from the turning flags in `frame`. -/
noncomputable def frameAngularVelocity (inp : Inputs) : ℝ :=
  let a : ℝ := 0
  let a := if inp.turningLeft then a - Real.pi * 0.5 else a
  if inp.turningRight then a + Real.pi * 0.5 else a

/-- The candidate position `towards = position + velocity * deltaTime`
computed in `frame`. -/
noncomputable def towardsOf (inp : Inputs) (deltaTime : ℝ) (player : Player) : Vector2 ℝ :=
  player.position.add ((frameVelocity inp player.direction).scale deltaTime)

/-- One tick of the movement integrator (the state update of `frame`):
heading is updated unconditionally; the move to `towards` is committed
exactly when `towards` is outside the scene bounds or the cell
`(floor(towards.x), floor(towards.y))` looks up as `null`. -/
noncomputable def frame (scene : Scene) (inp : Inputs) (deltaTime : ℝ) (player : Player) :
    Player :=
  let direction := player.direction + frameAngularVelocity inp * deltaTime
  let towards := towardsOf inp deltaTime player
  let cell : Vector2 ℝ := ⟨((⌊towards.x⌋ : ℤ) : ℝ), ((⌊towards.y⌋ : ℤ) : ℝ)⟩
  if !(insideScene scene towards) || (sceneCell scene ⌊cell.x⌋ ⌊cell.y⌋ == some Cell.empty) then
    { position := towards, direction := direction }
  else
    { position := player.position, direction := direction }

/-- Strict direction compatibility, used to track the ray-traversal invariant:
`t` is positive when the reference delta `d` is positive, negative when `d` is
negative, and zero when `d` is zero. -/
def sameDir (d t : ℚ) : Prop := (0 < d → 0 < t) ∧ (d < 0 → t < 0) ∧ (d = 0 → t = 0)

/-- Weak direction compatibility: like `sameDir` but `t` need only be weakly
on the side of zero selected by the reference delta `d`. -/
def alignDir (d a : ℚ) : Prop := (0 < d → 0 ≤ a) ∧ (d < 0 → a ≤ 0) ∧ (d = 0 → a = 0)

/-- 1×1 scene holding a single empty cell. -/
def scene1 : Scene := [[Cell.empty]]

/-- 1×1 scene holding a single red color cell. -/
def sceneWall : Scene := [[Cell.color 1 0 0 1]]

/-- 3×5 scene with every cell empty. -/
def openScene : Scene := List.replicate 3 (List.replicate 5 Cell.empty)

/-- Input state with no flag active. -/
def noInputs : Inputs := ⟨false, false, false, false, false, false⟩

/-- Input state with only the advance (`movingForward`) flag active. -/
def forwardInput : Inputs := ⟨true, false, false, false, false, false⟩

/-! ### Helper lemmas -/

set_option maxRecDepth 100000

/-- The boundary-nudging epsilon is positive. -/
theorem EPS_pos {β : Type} [LinearOrderedField β] : (0 : β) < EPS := by
  rw [EPS]; norm_num

/-- With a nonzero delta, `snap` returns an integer (cast back to the field). -/
theorem snap_eq_intCast {β : Type} [LinearOrderedField β] [FloorRing β] (x dx : β)
    (h : dx ≠ 0) : ∃ m : ℤ, snap x dx = (m : β) := by
  rcases lt_or_gt_of_ne h with hneg | hpos
  · exact ⟨⌊x - EPS⌋, by simp [snap, hneg, not_lt.mpr hneg.le]⟩
  · exact ⟨⌈x + EPS⌉, by simp [snap, hpos]⟩

/-- When both `dx` and the slope `k` are nonzero, `rayStep` picks between the
two snap candidates by comparing squared distances to `p2`, with the
strict `>` favoring the vertical-grid-line candidate. -/
theorem rayStep_of_dx_ne {β : Type} [LinearOrderedField β] [FloorRing β] (p1 p2 : Vector2 β)
    (hdx : (p2.sub p1).x ≠ 0) (hk : (p2.sub p1).y / (p2.sub p1).x ≠ 0) :
    rayStep p1 p2 =
      if p2.sqrDistanceTo (rayStepVert p1 p2) > p2.sqrDistanceTo (rayStepHoriz p1 p2)
      then rayStepHoriz p1 p2 else rayStepVert p1 p2 := by
  simp only [rayStep, ne_eq, hdx, hk, not_false_eq_true, if_true]

/-- With nonzero `dx` but zero slope, `rayStep` returns the vertical-grid-line
candidate. -/
theorem rayStep_of_k_eq_zero {β : Type} [LinearOrderedField β] [FloorRing β] (p1 p2 : Vector2 β)
    (hdx : (p2.sub p1).x ≠ 0) (hk : (p2.sub p1).y / (p2.sub p1).x = 0) :
    rayStep p1 p2 = rayStepVert p1 p2 := by
  simp only [rayStep, ne_eq, hdx, hk, not_false_eq_true, if_true, not_true, if_false,
    ite_false, ite_true]

/-- With zero `dx`, `rayStep` keeps `x` and snaps `y`. -/
theorem rayStep_of_dx_eq_zero {β : Type} [LinearOrderedField β] [FloorRing β] (p1 p2 : Vector2 β)
    (hdx : (p2.sub p1).x = 0) :
    rayStep p1 p2 = ⟨p2.x, snap p2.y (p2.sub p1).y⟩ := by
  simp only [rayStep, ne_eq, hdx, not_true, if_false, not_false_eq_true, ite_false, ite_true]


/-- `sameDir` is reflexive. -/
theorem sameDir_self (d : ℚ) : sameDir d d := ⟨fun h => h, fun h => h, fun h => h⟩

/-- `alignDir` is reflexive. -/
theorem alignDir_self (d : ℚ) : alignDir d d := ⟨fun h => h.le, fun h => h.le, fun h => h⟩

/-- A value strictly compatible with a nonzero reference delta is nonzero. -/
theorem sameDir_ne {d t : ℚ} (h : sameDir d t) (hd : d ≠ 0) : t ≠ 0 := by
  rcases lt_trichotomy d 0 with h1 | h1 | h1
  · exact ne_of_lt (h.2.1 h1)
  · exact absurd h1 hd
  · exact ne_of_gt (h.1 h1)

/-- If the compatible value is positive, the reference delta is positive. -/
theorem sameDir_pos_rev {d t : ℚ} (h : sameDir d t) (ht : 0 < t) : 0 < d := by
  rcases lt_trichotomy d 0 with h1 | h1 | h1
  · exact absurd (h.2.1 h1) (asymm ht)
  · exact absurd (h.2.2 h1) (ne_of_gt ht)
  · exact h1

/-- If the compatible value is negative, the reference delta is negative. -/
theorem sameDir_neg_rev {d t : ℚ} (h : sameDir d t) (ht : t < 0) : d < 0 := by
  rcases lt_trichotomy d 0 with h1 | h1 | h1
  · exact h1
  · exact absurd (h.2.2 h1) (ne_of_lt ht)
  · exact absurd (h.1 h1) (asymm ht)

/-- `sameDir` composes transitively. -/
theorem sameDir_trans {d t u : ℚ} (h1 : sameDir d t) (h2 : sameDir t u) : sameDir d u :=
  ⟨fun h => h2.1 (h1.1 h), fun h => h2.2.1 (h1.2.1 h), fun h => h2.2.2 (h1.2.2 h)⟩

/-- The zero reference delta is compatible with zero. -/
theorem sameDir_of_eq_zero {d : ℚ} (h : d = 0) : sameDir d 0 := by
  subst h
  exact ⟨fun h => absurd h (lt_irrefl 0), fun h => absurd h (lt_irrefl 0), fun _ => rfl⟩

/-- Adding a strictly compatible increment preserves weak compatibility. -/
theorem alignDir_add {d a t : ℚ} (ha : alignDir d a) (ht : sameDir d t) :
    alignDir d (a + t) :=
  ⟨fun h => add_nonneg (ha.1 h) (ht.1 h).le,
   fun h => add_nonpos (ha.2.1 h) (ht.2.1 h).le,
   fun h => by rw [ha.2.2 h, ht.2.2 h, add_zero]⟩

/-- For values on the same side of zero, the absolute value of the sum is the
sum of absolute values. -/
theorem abs_add_align {d a t : ℚ} (ha : alignDir d a) (ht : sameDir d t) :
    |a + t| = |a| + |t| := by
  rcases lt_trichotomy d 0 with h1 | h1 | h1
  · rw [abs_of_nonpos (ha.2.1 h1), abs_of_nonpos (ht.2.1 h1).le,
      abs_of_nonpos (add_nonpos (ha.2.1 h1) (ht.2.1 h1).le)]
    ring
  · rw [ha.2.2 h1, ht.2.2 h1]
    simp
  · rw [abs_of_nonneg (ha.1 h1), abs_of_nonneg (ht.1 h1).le,
      abs_of_nonneg (add_nonneg (ha.1 h1) (ht.1 h1).le)]

/-- Sign transfer across the cross-multiplied line equation `u·dx = v·t`:
when `dx` and `t` lie strictly on the same side of zero, `u` lies on the same
side of zero as `v`. -/
theorem sameDir_of_cross_mul {u dx v t : ℚ} (hmul : u * dx = v * t)
    (hsgn : (0 < dx ∧ 0 < t) ∨ (dx < 0 ∧ t < 0)) : sameDir v u := by
  have hdx : dx ≠ 0 := by
    rcases hsgn with ⟨h, _⟩ | ⟨h, _⟩
    exacts [ne_of_gt h, ne_of_lt h]
  refine ⟨fun hv => ?_, fun hv => ?_, fun hv => ?_⟩
  · rcases hsgn with ⟨h1, h2⟩ | ⟨h1, h2⟩
    · nlinarith [mul_pos hv h2]
    · nlinarith [mul_pos hv (neg_pos.mpr h2)]
  · rcases hsgn with ⟨h1, h2⟩ | ⟨h1, h2⟩
    · nlinarith [mul_neg_of_neg_of_pos hv h2]
    · nlinarith [mul_pos_of_neg_of_neg hv h2]
  · have h0 : u * dx = 0 := by rw [hmul, hv, zero_mul]
    rcases mul_eq_zero.mp h0 with h | h
    · exact h
    · exact absurd h hdx

/-- With positive delta, `snap` moves at least `EPS` upward. -/
theorem snap_ge (x dx : ℚ) (h : 0 < dx) : x + EPS ≤ snap x dx := by
  simp only [snap, h, if_true, ite_true]
  exact Int.le_ceil _

/-- With negative delta, `snap` moves at least `EPS` downward. -/
theorem snap_le (x dx : ℚ) (h : dx < 0) : snap x dx ≤ x - EPS := by
  simp only [snap, not_lt.mpr h.le, h, if_false, if_true, ite_true, ite_false]
  exact Int.floor_le _

/-- A `snap` along a nonzero delta moves by at least `EPS`, strictly in the
direction of the reference delta. -/
theorem snap_advances {d0 : ℚ} (y dy : ℚ) (hs : sameDir d0 dy) (hdy : dy ≠ 0) :
    sameDir d0 (snap y dy - y) ∧ EPS ≤ |snap y dy - y| := by
  have hE : (0 : ℚ) < EPS := EPS_pos
  rcases lt_or_gt_of_ne hdy with hneg | hpos
  · have h1 : snap y dy ≤ y - EPS := snap_le _ _ hneg
    have h2 : snap y dy - y < 0 := by linarith
    have hd0 : d0 < 0 := sameDir_neg_rev hs hneg
    exact ⟨⟨fun h => absurd h (asymm hd0), fun _ => h2, fun h => absurd h (ne_of_lt hd0)⟩,
      by rw [abs_of_neg h2]; linarith⟩
  · have h1 : y + EPS ≤ snap y dy := snap_ge _ _ hpos
    have h2 : 0 < snap y dy - y := by linarith
    have hd0 : 0 < d0 := sameDir_pos_rev hs hpos
    exact ⟨⟨fun _ => h2, fun h => absurd h (asymm hd0), fun h => absurd h (ne_of_gt hd0)⟩,
      by rw [abs_of_pos h2]; linarith⟩

/-- The vertical-grid-line candidate lies on the traversed line, advances `x`
by at least `EPS` in the travel direction, and keeps the `y` movement in the
travel direction. -/
theorem rayStepVert_advances {dx0 dy0 : ℚ} (p1 p2 : Vector2 ℚ)
    (hx : sameDir dx0 (p2.x - p1.x)) (hy : sameDir dy0 (p2.y - p1.y))
    (hdx : p2.x - p1.x ≠ 0) :
    sameDir dx0 ((rayStepVert p1 p2).x - p2.x) ∧
    sameDir dy0 ((rayStepVert p1 p2).y - p2.y) ∧
    EPS ≤ |(rayStepVert p1 p2).x - p2.x| := by
  have hvx : (rayStepVert p1 p2).x = snap p2.x (p2.x - p1.x) := by
    simp [rayStepVert, Vector2.sub]
  have hcross : ((rayStepVert p1 p2).y - p2.y) * (p2.x - p1.x)
      = (p2.y - p1.y) * ((rayStepVert p1 p2).x - p2.x) := by
    simp only [rayStepVert, Vector2.sub]
    field_simp
    ring
  rcases lt_or_gt_of_ne hdx with hneg | hpos
  · have hsnap : snap p2.x (p2.x - p1.x) ≤ p2.x - EPS := snap_le _ _ hneg
    have hdlt : (rayStepVert p1 p2).x - p2.x ≤ -EPS := by rw [hvx]; linarith
    have hdneg : (rayStepVert p1 p2).x - p2.x < 0 :=
      lt_of_le_of_lt hdlt (neg_lt_zero.mpr EPS_pos)
    have hdx0 : dx0 < 0 := sameDir_neg_rev hx hneg
    have hsx : sameDir dx0 ((rayStepVert p1 p2).x - p2.x) :=
      ⟨fun h => absurd h (asymm hdx0), fun _ => hdneg, fun h => absurd h (ne_of_lt hdx0)⟩
    refine ⟨hsx, sameDir_trans hy (sameDir_of_cross_mul hcross (Or.inr ⟨hneg, hdneg⟩)), ?_⟩
    rw [abs_of_neg hdneg]
    linarith
  · have hsnap : p2.x + EPS ≤ snap p2.x (p2.x - p1.x) := snap_ge _ _ hpos
    have hdge : EPS ≤ (rayStepVert p1 p2).x - p2.x := by rw [hvx]; linarith
    have hdpos : 0 < (rayStepVert p1 p2).x - p2.x := lt_of_lt_of_le EPS_pos hdge
    have hdx0 : 0 < dx0 := sameDir_pos_rev hx hpos
    have hsx : sameDir dx0 ((rayStepVert p1 p2).x - p2.x) :=
      ⟨fun _ => hdpos, fun h => absurd h (asymm hdx0), fun h => absurd h (ne_of_gt hdx0)⟩
    refine ⟨hsx, sameDir_trans hy (sameDir_of_cross_mul hcross (Or.inl ⟨hpos, hdpos⟩)), ?_⟩
    rw [abs_of_pos hdpos]
    exact hdge

/-- The horizontal-grid-line candidate lies on the traversed line, advances
`y` by at least `EPS` in the travel direction, and keeps the `x` movement in
the travel direction. -/
theorem rayStepHoriz_advances {dx0 dy0 : ℚ} (p1 p2 : Vector2 ℚ)
    (hx : sameDir dx0 (p2.x - p1.x)) (hy : sameDir dy0 (p2.y - p1.y))
    (hdx : p2.x - p1.x ≠ 0) (hdy : p2.y - p1.y ≠ 0) :
    sameDir dx0 ((rayStepHoriz p1 p2).x - p2.x) ∧
    sameDir dy0 ((rayStepHoriz p1 p2).y - p2.y) ∧
    EPS ≤ |(rayStepHoriz p1 p2).y - p2.y| := by
  have hvy : (rayStepHoriz p1 p2).y = snap p2.y (p2.y - p1.y) := by
    simp [rayStepHoriz, Vector2.sub]
  have hk : (p2.y - p1.y) / (p2.x - p1.x) ≠ 0 := div_ne_zero hdy hdx
  have hcross : ((rayStepHoriz p1 p2).x - p2.x) * (p2.y - p1.y)
      = (p2.x - p1.x) * ((rayStepHoriz p1 p2).y - p2.y) := by
    simp only [rayStepHoriz, Vector2.sub]
    field_simp
    ring
  rcases lt_or_gt_of_ne hdy with hneg | hpos
  · have hsnap : snap p2.y (p2.y - p1.y) ≤ p2.y - EPS := snap_le _ _ hneg
    have hdlt : (rayStepHoriz p1 p2).y - p2.y ≤ -EPS := by rw [hvy]; linarith
    have hdneg : (rayStepHoriz p1 p2).y - p2.y < 0 :=
      lt_of_le_of_lt hdlt (neg_lt_zero.mpr EPS_pos)
    have hdy0 : dy0 < 0 := sameDir_neg_rev hy hneg
    have hsy : sameDir dy0 ((rayStepHoriz p1 p2).y - p2.y) :=
      ⟨fun h => absurd h (asymm hdy0), fun _ => hdneg, fun h => absurd h (ne_of_lt hdy0)⟩
    refine ⟨sameDir_trans hx (sameDir_of_cross_mul hcross (Or.inr ⟨hneg, hdneg⟩)), hsy, ?_⟩
    rw [abs_of_neg hdneg]
    linarith
  · have hsnap : p2.y + EPS ≤ snap p2.y (p2.y - p1.y) := snap_ge _ _ hpos
    have hdge : EPS ≤ (rayStepHoriz p1 p2).y - p2.y := by rw [hvy]; linarith
    have hdpos : 0 < (rayStepHoriz p1 p2).y - p2.y := lt_of_lt_of_le EPS_pos hdge
    have hdy0 : 0 < dy0 := sameDir_pos_rev hy hpos
    have hsy : sameDir dy0 ((rayStepHoriz p1 p2).y - p2.y) :=
      ⟨fun _ => hdpos, fun h => absurd h (asymm hdy0), fun h => absurd h (ne_of_gt hdy0)⟩
    refine ⟨sameDir_trans hx (sameDir_of_cross_mul hcross (Or.inl ⟨hpos, hdpos⟩)), hsy, ?_⟩
    rw [abs_of_pos hdpos]
    exact hdge

/-- One `rayStep` from a pair with nonzero delta moves the tip by at least
`EPS` in taxicab distance, strictly within the original travel direction on
each axis. -/
theorem rayStep_advances {dx0 dy0 : ℚ} (p1 p2 : Vector2 ℚ)
    (hx : sameDir dx0 (p2.x - p1.x)) (hy : sameDir dy0 (p2.y - p1.y))
    (hne : dx0 ≠ 0 ∨ dy0 ≠ 0) :
    sameDir dx0 ((rayStep p1 p2).x - p2.x) ∧
    sameDir dy0 ((rayStep p1 p2).y - p2.y) ∧
    EPS ≤ |(rayStep p1 p2).x - p2.x| + |(rayStep p1 p2).y - p2.y| := by
  by_cases hdx : (p2.sub p1).x = 0
  · have hdx' : p2.x - p1.x = 0 := hdx
    have hdx0 : dx0 = 0 := by
      by_contra h
      exact (sameDir_ne hx h) hdx'
    have hdy0 : dy0 ≠ 0 := hne.resolve_left (not_not_intro hdx0)
    have hdy' : p2.y - p1.y ≠ 0 := sameDir_ne hy hdy0
    have hdyy : (p2.sub p1).y = p2.y - p1.y := rfl
    rw [rayStep_of_dx_eq_zero p1 p2 hdx]
    refine ⟨?_, ?_, ?_⟩
    · show sameDir dx0 (p2.x - p2.x)
      rw [sub_self]
      exact sameDir_of_eq_zero hdx0
    · show sameDir dy0 (snap p2.y (p2.sub p1).y - p2.y)
      rw [hdyy]
      exact (snap_advances p2.y _ hy hdy').1
    · show EPS ≤ |p2.x - p2.x| + |snap p2.y (p2.sub p1).y - p2.y|
      rw [sub_self, abs_zero, zero_add, hdyy]
      exact (snap_advances p2.y _ hy hdy').2
  · have hdx' : p2.x - p1.x ≠ 0 := hdx
    by_cases hky : (p2.sub p1).y / (p2.sub p1).x = 0
    · rw [rayStep_of_k_eq_zero p1 p2 hdx hky]
      have hv := rayStepVert_advances p1 p2 hx hy hdx'
      refine ⟨hv.1, hv.2.1, ?_⟩
      have h1 := hv.2.2
      have h2 := abs_nonneg ((rayStepVert p1 p2).y - p2.y)
      linarith
    · have hdy' : p2.y - p1.y ≠ 0 := by
        intro h0
        apply hky
        show (p2.sub p1).y / (p2.sub p1).x = 0
        have hh : (p2.sub p1).y = 0 := h0
        rw [hh, zero_div]
      rw [rayStep_of_dx_ne p1 p2 hdx hky]
      by_cases hgt : p2.sqrDistanceTo (rayStepVert p1 p2) > p2.sqrDistanceTo (rayStepHoriz p1 p2)
      · rw [if_pos hgt]
        have hh := rayStepHoriz_advances p1 p2 hx hy hdx' hdy'
        refine ⟨hh.1, hh.2.1, ?_⟩
        have h1 := hh.2.2
        have h2 := abs_nonneg ((rayStepHoriz p1 p2).x - p2.x)
        linarith
      · rw [if_neg hgt]
        have hv := rayStepVert_advances p1 p2 hx hy hdx'
        refine ⟨hv.1, hv.2.1, ?_⟩
        have h1 := hv.2.2
        have h2 := abs_nonneg ((rayStepVert p1 p2).y - p2.y)
        linarith

/-- The `castRay` loop exits (does not run out of fuel) once the fuel times
`EPS` plus the taxicab distance already travelled reaches `20`: each pass
either stops on a hit, stops on the far-clip test, or advances the state by at
least `EPS` while preserving the direction invariant. -/
theorem castRayGo_exits (scene : Scene) (start : Vector2 ℚ) {dx0 dy0 : ℚ}
    (hne : dx0 ≠ 0 ∨ dy0 ≠ 0) :
    ∀ (n : Nat) (p1 p2 : Vector2 ℚ),
      sameDir dx0 (p2.x - p1.x) → sameDir dy0 (p2.y - p1.y) →
      alignDir dx0 (p1.x - start.x) → alignDir dy0 (p1.y - start.y) →
      EPS ≤ |p2.x - p1.x| + |p2.y - p1.y| →
      20 ≤ (n : ℚ) * EPS + (|p1.x - start.x| + |p1.y - start.y|) →
      castRayGo scene start n p1 p2 ≠ none := by
  intro n
  induction n with
  | zero =>
    intro p1 p2 hx hy hax hay hstep hfuel
    have h20 : 20 ≤ |p1.x - start.x| + |p1.y - start.y| := by
      simpa using hfuel
    have hfar : ¬ (start.sqrDistanceTo p1 < FAR_CLIPPING_PLANE ^ 2) := by
      simp only [Vector2.sqrDistanceTo, Vector2.sub, Vector2.sqrLength, FAR_CLIPPING_PLANE]
      push_neg
      nlinarith [sq_abs (p1.x - start.x), sq_abs (p1.y - start.y),
        sq_nonneg (|p1.x - start.x| - |p1.y - start.y|),
        abs_nonneg (p1.x - start.x), abs_nonneg (p1.y - start.y)]
    simp [castRayGo, hfar]
  | succ n ih =>
    intro p1 p2 hx hy hax hay hstep hfuel
    by_cases hfar : start.sqrDistanceTo p1 < FAR_CLIPPING_PLANE ^ 2
    · by_cases hhit : (insideScene scene (hittingCell p1 p2)
          && !(sceneCell scene ⌊(hittingCell p1 p2).x⌋ ⌊(hittingCell p1 p2).y⌋
              == some Cell.empty)) = true
      · simp [castRayGo, hfar, hhit]
      · have hrec : castRayGo scene start (n + 1) p1 p2
            = castRayGo scene start n p2 (rayStep p1 p2) := by
          simp [castRayGo, hfar, hhit]
        rw [hrec]
        have hadv := rayStep_advances p1 p2 hx hy hne
        have ex : p2.x - start.x = (p1.x - start.x) + (p2.x - p1.x) := by ring
        have ey : p2.y - start.y = (p1.y - start.y) + (p2.y - p1.y) := by ring
        have hax' : alignDir dx0 (p2.x - start.x) := by
          rw [ex]; exact alignDir_add hax hx
        have hay' : alignDir dy0 (p2.y - start.y) := by
          rw [ey]; exact alignDir_add hay hy
        have habs_x : |p2.x - start.x| = |p1.x - start.x| + |p2.x - p1.x| := by
          rw [ex]; exact abs_add_align hax hx
        have habs_y : |p2.y - start.y| = |p1.y - start.y| + |p2.y - p1.y| := by
          rw [ey]; exact abs_add_align hay hy
        have hfuel' : 20 ≤ (n : ℚ) * EPS + (|p2.x - start.x| + |p2.y - start.y|) := by
          rw [habs_x, habs_y]
          push_cast at hfuel
          linarith
        exact ih p2 (rayStep p1 p2) hadv.1 hadv.2.1 hax' hay' hadv.2.2 hfuel'
    · simp [castRayGo, hfar]

/-- Unfolding of one `castRay` loop pass. -/
theorem castRayGo_succ_eq (scene : Scene) (start : Vector2 ℚ) (n : Nat) (p1 p2 : Vector2 ℚ) :
    castRayGo scene start (n + 1) p1 p2 =
      if start.sqrDistanceTo p1 < FAR_CLIPPING_PLANE ^ 2 then
        if insideScene scene (hittingCell p1 p2)
            && !(sceneCell scene ⌊(hittingCell p1 p2).x⌋ ⌊(hittingCell p1 p2).y⌋
                == some Cell.empty) then some p2
        else castRayGo scene start n p2 (rayStep p1 p2)
      else some p2 := rfl

/-- In the 1×1 empty scene, a degenerate pair `p1 = p2 = (1/2, 1/2)` is a
fixed point of the loop: `rayStep` makes no progress and the distance from the
start never grows, so the loop never exits, whatever the fuel. -/
theorem castRayGo_stuck_empty (n : Nat) :
    castRayGo scene1 (⟨1/2, 1/2⟩ : Vector2 ℚ) n ⟨1/2, 1/2⟩ ⟨1/2, 1/2⟩ = none := by
  induction n with
  | zero => with_unfolding_all decide
  | succ n ih =>
    have hfar : (⟨1/2, 1/2⟩ : Vector2 ℚ).sqrDistanceTo ⟨1/2, 1/2⟩ < FAR_CLIPPING_PLANE ^ 2 := by
      with_unfolding_all decide
    have hhit : (insideScene scene1 (hittingCell (⟨1/2, 1/2⟩ : Vector2 ℚ) ⟨1/2, 1/2⟩)
        && !(sceneCell scene1 ⌊(hittingCell (⟨1/2, 1/2⟩ : Vector2 ℚ) ⟨1/2, 1/2⟩).x⌋
            ⌊(hittingCell (⟨1/2, 1/2⟩ : Vector2 ℚ) ⟨1/2, 1/2⟩).y⌋
            == some Cell.empty)) = false := by
      with_unfolding_all decide
    have hstep : rayStep (⟨1/2, 1/2⟩ : Vector2 ℚ) ⟨1/2, 1/2⟩ = ⟨1/2, 1/2⟩ := by
      with_unfolding_all decide
    rw [castRayGo_succ_eq, if_pos hfar, hstep, if_neg]
    · exact ih
    · rw [hhit]
      exact Bool.false_ne_true

/-! ### Claim theorems -/

/-- Claim C4: `lerp(a, b, 0)` equals `a` exactly, `lerp(a, b, 1)` equals `b`
exactly, `lerp(a, b, alpha)` is `a + (b - a)·alpha`, and `lerp a b` is affine
in alpha (it maps affine combinations of parameters to the same affine
combinations of values). -/
theorem lerp_endpoints_and_affine {β : Type} [LinearOrderedField β] (a b : Vector2 β) :
    a.lerp b 0 = a ∧ a.lerp b 1 = b ∧
    (∀ alpha : β, a.lerp b alpha = a.add ((b.sub a).scale alpha)) ∧
    (∀ s t u : β, a.lerp b ((1 - t) * s + t * u) =
      ((a.lerp b s).scale (1 - t)).add ((a.lerp b u).scale t)) := by
  obtain ⟨ax, ay⟩ := a
  obtain ⟨bx, by'⟩ := b
  refine ⟨?_, ?_, fun alpha => ?_, fun s t u => ?_⟩ <;>
    simp only [Vector2.lerp, Vector2.sub, Vector2.scale, Vector2.add, Vector2.mk.injEq] <;>
    constructor <;> ring

/-- Claim C5: the two `fovRange` edge points are symmetric about the player's
heading: their midpoint is exactly the forward point
`position + fromAngle(direction) * NEAR_CLIPPING_PLANE` on the heading ray. -/
theorem fovRange_symmetric (player : Player) :
    ((player.fovRange.1).add player.fovRange.2).scale (1 / 2)
      = player.position.add ((Vector2.fromAngle player.direction).scale NEAR_CLIPPING_PLANE) := by
  obtain ⟨⟨px, py⟩, dir⟩ := player
  simp only [Player.fovRange, Vector2.add, Vector2.sub, Vector2.scale, Vector2.rot90,
    Vector2.fromAngle, Vector2.mk.injEq]
  constructor <;> ring

/-- Claim C8: the strip for a hit column has height
`canvasHeight / dot(hitVector, viewDirection)` and top edge at
`(canvasHeight - stripHeight) / 2`; in particular a dot product of `2` with
canvas height `400` yields height `200` and top `100`. -/
theorem renderStrip_height_and_top (canvasHeight : ℝ) (player : Player) (p : Vector2 ℝ) :
    (renderStripGeometry canvasHeight player p).1
        = canvasHeight / ((p.sub player.position).dot (Vector2.fromAngle player.direction)) ∧
    (renderStripGeometry canvasHeight player p).2
        = (canvasHeight - (renderStripGeometry canvasHeight player p).1) / 2 ∧
    ((p.sub player.position).dot (Vector2.fromAngle player.direction) = 2 → canvasHeight = 400 →
      renderStripGeometry canvasHeight player p = (200, 100)) := by
  refine ⟨rfl, rfl, fun hdot hh => ?_⟩
  simp only [renderStripGeometry, hdot, hh]
  norm_num

/-- Witness for C8: with the player at the origin heading east and hit point
`(2, 5)`, the dot product is `2`, so height is `200` and top is `100`. -/
theorem renderStrip_height_witness :
    renderStripGeometry 400 ⟨⟨0, 0⟩, 0⟩ ⟨2, 5⟩ = (200, 100) := by
  refine (renderStrip_height_and_top 400 ⟨⟨0, 0⟩, 0⟩ ⟨2, 5⟩).2.2 ?_ rfl
  simp [Vector2.sub, Vector2.dot, Vector2.fromAngle]

/-- Claim C9: `norm()` is total: the zero vector normalizes to the zero vector
(no failure), and every nonzero vector normalizes to the vector divided
componentwise by its Euclidean length. -/
theorem norm_never_fails (v : Vector2 ℝ) :
    (Vector2.zero : Vector2 ℝ).norm = Vector2.zero ∧
    (v ≠ Vector2.zero → v.length ≠ 0 ∧ v.norm = ⟨v.x / v.length, v.y / v.length⟩) := by
  constructor
  · simp [Vector2.norm, Vector2.length, Vector2.zero, Vector2.sqrLength]
  · intro hv
    have hcomp : v.x ≠ 0 ∨ v.y ≠ 0 := by
      by_contra hc
      push_neg at hc
      apply hv
      obtain ⟨x, y⟩ := v
      simp only [Vector2.zero, Vector2.mk.injEq]
      exact ⟨hc.1, hc.2⟩
    have hsq : 0 < v.sqrLength := by
      obtain ⟨x, y⟩ := v
      simp only [Vector2.sqrLength] at *
      rcases hcomp with hx | hy
      · nlinarith [mul_self_pos.mpr hx, mul_self_nonneg y]
      · nlinarith [mul_self_pos.mpr hy, mul_self_nonneg x]
    have hlen : 0 < v.length := by
      simp only [Vector2.length]
      exact Real.sqrt_pos.mpr hsq
    exact ⟨ne_of_gt hlen, by simp [Vector2.norm, ne_of_gt hlen]⟩

/-- Witness for C9: the nonzero vector `(3, 4)` normalizes to itself divided
by its length. -/
theorem norm_never_fails_witness :
    (⟨3, 4⟩ : Vector2 ℝ) ≠ Vector2.zero ∧
      (⟨3, 4⟩ : Vector2 ℝ).norm
        = ⟨3 / (⟨3, 4⟩ : Vector2 ℝ).length, 4 / (⟨3, 4⟩ : Vector2 ℝ).length⟩ := by
  have h : (⟨3, 4⟩ : Vector2 ℝ) ≠ Vector2.zero := by
    simp [Vector2.zero]
  exact ⟨h, ((norm_never_fails ⟨3, 4⟩).2 h).2⟩

/-- Claim C3: for a delta that is nonzero in at least one component, the point
returned by `rayStep` lies within `EPS` of an integer grid line on the axis it
snapped (`rayStepTargetsX` tells which axis the chosen candidate targeted). -/
theorem rayStep_targets_grid_line {β : Type} [LinearOrderedField β] [FloorRing β]
    (p1 p2 : Vector2 β)
    (h : (p2.sub p1).x ≠ 0 ∨ (p2.sub p1).y ≠ 0) :
    (rayStepTargetsX p1 p2 = true → ∃ m : ℤ, |(rayStep p1 p2).x - (m : β)| ≤ EPS) ∧
    (rayStepTargetsX p1 p2 = false → ∃ m : ℤ, |(rayStep p1 p2).y - (m : β)| ≤ EPS) := by
  have hEPS : (0 : β) ≤ EPS := le_of_lt EPS_pos
  by_cases hdx : (p2.sub p1).x = 0
  · have hdy : (p2.sub p1).y ≠ 0 := h.resolve_left (not_not_intro hdx)
    obtain ⟨m, hm⟩ := snap_eq_intCast p2.y (p2.sub p1).y hdy
    refine ⟨fun ht => absurd ht (by simp [rayStepTargetsX, hdx]), fun _ => ⟨m, ?_⟩⟩
    rw [rayStep_of_dx_eq_zero p1 p2 hdx]
    simp [hm, hEPS]
  · by_cases hk : (p2.sub p1).y / (p2.sub p1).x = 0
    · obtain ⟨m, hm⟩ := snap_eq_intCast p2.x (p2.sub p1).x hdx
      refine ⟨fun _ => ⟨m, ?_⟩, fun hf => absurd hf (by simp [rayStepTargetsX, hdx, hk])⟩
      rw [rayStep_of_k_eq_zero p1 p2 hdx hk]
      simp [rayStepVert, hm, hEPS]
    · by_cases hgt : p2.sqrDistanceTo (rayStepVert p1 p2) > p2.sqrDistanceTo (rayStepHoriz p1 p2)
      · have hdy : (p2.sub p1).y ≠ 0 := fun h0 => hk (by rw [h0, zero_div])
        obtain ⟨m, hm⟩ := snap_eq_intCast p2.y (p2.sub p1).y hdy
        refine ⟨fun ht => absurd ht (by simp [rayStepTargetsX, hdx, hk, hgt]), fun _ => ⟨m, ?_⟩⟩
        rw [rayStep_of_dx_ne p1 p2 hdx hk, if_pos hgt]
        simp [rayStepHoriz, hm, hEPS]
      · obtain ⟨m, hm⟩ := snap_eq_intCast p2.x (p2.sub p1).x hdx
        refine ⟨fun _ => ⟨m, ?_⟩, fun hf => absurd hf (by simp [rayStepTargetsX, hdx, hk, hgt])⟩
        rw [rayStep_of_dx_ne p1 p2 hdx hk, if_neg hgt]
        simp [rayStepVert, hm, hEPS]

/-- Witness for C3: the ray from `(0,0)` through `(1/3, 1/2)` steps to a point
whose `y` coordinate is within `EPS` of an integer grid line. -/
theorem rayStep_targets_grid_line_witness :
    ∃ m : ℤ, |(rayStep (⟨0, 0⟩ : Vector2 ℚ) ⟨1/3, 1/2⟩).y - (m : ℚ)| ≤ EPS :=
  (rayStep_targets_grid_line (⟨0, 0⟩ : Vector2 ℚ) ⟨1/3, 1/2⟩
    (Or.inl (by with_unfolding_all decide))).2 (by with_unfolding_all decide)

/-- Claim C10: when both stepper candidates exist (nonzero `dx` and nonzero
slope `k`) and they are exactly equidistant from `p2` in squared distance, the
strict `>` comparison makes `rayStep` return the vertical-grid-line
candidate. -/
theorem rayStep_tie_prefers_vertical {β : Type} [LinearOrderedField β] [FloorRing β]
    (p1 p2 : Vector2 β)
    (hdx : (p2.sub p1).x ≠ 0)
    (hk : (p2.sub p1).y / (p2.sub p1).x ≠ 0)
    (htie : p2.sqrDistanceTo (rayStepVert p1 p2) = p2.sqrDistanceTo (rayStepHoriz p1 p2)) :
    rayStep p1 p2 = rayStepVert p1 p2 := by
  rw [rayStep_of_dx_ne p1 p2 hdx hk, if_neg]
  rw [htie]
  exact lt_irrefl _

/-- Witness for C10: the diagonal ray from `(0,0)` through `(1/2, 1/2)` has
equidistant candidates and steps to the vertical-grid-line candidate. -/
theorem rayStep_tie_witness :
    rayStep (⟨0, 0⟩ : Vector2 ℚ) ⟨1/2, 1/2⟩ = rayStepVert (⟨0, 0⟩ : Vector2 ℚ) ⟨1/2, 1/2⟩ :=
  rayStep_tie_prefers_vertical ⟨0, 0⟩ ⟨1/2, 1/2⟩
    (by with_unfolding_all decide)
    (by with_unfolding_all decide)
    (by with_unfolding_all decide)

/-- Claim C6: each tick, the integrator commits the candidate position
`towards` exactly when `towards` is outside the scene bounds or its floor cell
looks up as empty; it never commits a position whose floor cell is a non-empty
cell of the scene, and on rejection the position is left unchanged. -/
theorem frame_commit_iff (scene : Scene) (inp : Inputs) (deltaTime : ℝ) (player : Player) :
    (insideScene scene (towardsOf inp deltaTime player) = false →
      (frame scene inp deltaTime player).position = towardsOf inp deltaTime player) ∧
    (sceneCell scene ⌊(towardsOf inp deltaTime player).x⌋ ⌊(towardsOf inp deltaTime player).y⌋
        = some Cell.empty →
      (frame scene inp deltaTime player).position = towardsOf inp deltaTime player) ∧
    (insideScene scene (towardsOf inp deltaTime player) = true →
      sceneCell scene ⌊(towardsOf inp deltaTime player).x⌋ ⌊(towardsOf inp deltaTime player).y⌋
        ≠ some Cell.empty →
      (frame scene inp deltaTime player).position = player.position) := by
  refine ⟨fun h1 => ?_, fun h2 => ?_, fun h3 h4 => ?_⟩
  · simp [frame, Int.floor_intCast, h1]
  · simp [frame, Int.floor_intCast, h2]
  · have hbeq : (sceneCell scene ⌊(towardsOf inp deltaTime player).x⌋
        ⌊(towardsOf inp deltaTime player).y⌋ == some Cell.empty) = false :=
      beq_eq_false_iff_ne.mpr h4
    simp [frame, Int.floor_intCast, h3, hbeq]

/-- Witness for C6: a player standing inside the 1×1 wall scene with no input
flags active stays in place, because the destination cell is the wall. -/
theorem frame_commit_iff_witness :
    insideScene sceneWall (towardsOf noInputs 0 ⟨⟨1/2, 1/2⟩, 0⟩) = true ∧
    sceneCell sceneWall ⌊(towardsOf noInputs 0 ⟨⟨1/2, 1/2⟩, 0⟩).x⌋
        ⌊(towardsOf noInputs 0 ⟨⟨1/2, 1/2⟩, 0⟩).y⌋ ≠ some Cell.empty ∧
    (frame sceneWall noInputs 0 ⟨⟨1/2, 1/2⟩, 0⟩).position = (⟨1/2, 1/2⟩ : Vector2 ℝ) := by
  have htow : towardsOf noInputs 0 (⟨⟨1/2, 1/2⟩, 0⟩ : Player) = ⟨1/2, 1/2⟩ := by
    simp [towardsOf, frameVelocity, noInputs, Vector2.zero, Vector2.add, Vector2.scale]
  have hfloor : (⌊((1:ℝ)/2)⌋ : ℤ) = 0 := by
    rw [Int.floor_eq_iff]
    norm_num
  have hin : insideScene sceneWall (towardsOf noInputs 0 ⟨⟨1/2, 1/2⟩, 0⟩) = true := by
    rw [htow]
    simp only [insideScene, sceneSize, sceneWall, Bool.and_eq_true, decide_eq_true_eq]
    norm_num [jsMinValue]
  have hcell : sceneCell sceneWall ⌊(towardsOf noInputs 0 ⟨⟨1/2, 1/2⟩, 0⟩).x⌋
      ⌊(towardsOf noInputs 0 ⟨⟨1/2, 1/2⟩, 0⟩).y⌋ ≠ some Cell.empty := by
    rw [htow]
    simp only [hfloor]
    with_unfolding_all decide
  refine ⟨hin, hcell, ?_⟩
  have := (frame_commit_iff sceneWall noInputs 0 ⟨⟨1/2, 1/2⟩, 0⟩).2.2 hin hcell
  rw [this]

/-- Claim C7: with the player at `(2,2)` heading east (direction `0`), only the
advance flag active, `deltaTime = 1` and speed `2.5`, one integrator tick moves
the player to exactly `(4.5, 2)` with heading unchanged, provided the
destination cell `(4, 2)` of the scene is empty. -/
theorem frame_forward_east (scene : Scene)
    (h : sceneCell scene 4 2 = some Cell.empty) :
    frame scene forwardInput 1 ⟨⟨2, 2⟩, 0⟩ = ⟨⟨9/2, 2⟩, 0⟩ := by
  have htow : towardsOf forwardInput 1 (⟨⟨2, 2⟩, 0⟩ : Player) = ⟨9/2, 2⟩ := by
    simp only [towardsOf, frameVelocity, forwardInput, Vector2.zero, Vector2.add,
      Vector2.scale, Vector2.sub, Vector2.rot90, Vector2.fromAngle, Real.cos_zero,
      Real.sin_zero, if_true, if_false, Bool.false_eq_true, ite_false, ite_true,
      PLAYER_SPEED, Vector2.mk.injEq]
    norm_num
  have hfx : (⌊((9:ℝ)/2)⌋ : ℤ) = 4 := by
    rw [Int.floor_eq_iff]
    norm_num
  have hfy : (⌊(2:ℝ)⌋ : ℤ) = 2 := by
    rw [Int.floor_eq_iff]
    norm_num
  have hang : frameAngularVelocity forwardInput = 0 := by
    simp [frameAngularVelocity, forwardInput]
  simp only [frame, htow, hang, Int.floor_intCast, hfx, hfy, h, beq_self_eq_true,
    Bool.or_true, if_true, zero_mul, add_zero, ite_true]

/-- Witness for C7: in the all-empty 3×5 scene the destination cell `(4,2)` is
empty and the tick moves the player to `(4.5, 2)`. -/
theorem frame_forward_east_witness :
    sceneCell openScene 4 2 = some Cell.empty ∧
      frame openScene forwardInput 1 ⟨⟨2, 2⟩, 0⟩ = ⟨⟨9/2, 2⟩, 0⟩ := by
  have h : sceneCell openScene 4 2 = some Cell.empty := by with_unfolding_all decide
  exact ⟨h, frame_forward_east openScene h⟩

/-- Counterexample to claim C1: in the 1×1 empty scene, the ray from
`(5/2, 1/2)` to `(7/2, 1/2)` has its tip in cell `(3, 0)`, which is outside
the scene, yet `castRay` does not stop there and return the tip `(7/2, 1/2)`:
it keeps stepping and returns `(14, 1/2)`, where the far-clip distance bound
finally ends the loop. -/
theorem castRay_stops_outside_counterexample :
    insideScene scene1 (hittingCell (⟨5/2, 1/2⟩ : Vector2 ℚ) ⟨7/2, 1/2⟩) = false ∧
    castRay scene1 20 (⟨5/2, 1/2⟩ : Vector2 ℚ) ⟨7/2, 1/2⟩ = some ⟨14, 1/2⟩ ∧
    ((⟨14, 1/2⟩ : Vector2 ℚ) ≠ ⟨7/2, 1/2⟩) := by
  refine ⟨?_, ?_, ?_⟩ <;> with_unfolding_all decide

/-- Claim C1 (amended): each `castRay` loop pass that starts within the
far-clip distance bound computes the hitting cell of the current tip via the
biased floor `hittingCell`, and stops returning the current tip exactly when
that cell is inside the scene AND occupied (does not look up as `null`); when
the cell is outside the scene the loop does not stop but steps the ray
forward and continues. -/
theorem castRay_stop_conditions {β : Type} [LinearOrderedField β] [FloorRing β]
    (scene : Scene) (start : Vector2 β) (n : Nat) (p1 p2 : Vector2 β)
    (hdist : start.sqrDistanceTo p1 < FAR_CLIPPING_PLANE ^ 2) :
    (insideScene scene (hittingCell p1 p2) = true →
      sceneCell scene ⌊(hittingCell p1 p2).x⌋ ⌊(hittingCell p1 p2).y⌋ ≠ some Cell.empty →
      castRayGo scene start (n + 1) p1 p2 = some p2) ∧
    (insideScene scene (hittingCell p1 p2) = false →
      castRayGo scene start (n + 1) p1 p2 = castRayGo scene start n p2 (rayStep p1 p2)) := by
  constructor
  · intro hin hcell
    have hbeq : (sceneCell scene ⌊(hittingCell p1 p2).x⌋ ⌊(hittingCell p1 p2).y⌋
        == some Cell.empty) = false := beq_eq_false_iff_ne.mpr hcell
    simp [castRayGo, hdist, hin, hbeq]
  · intro hin
    simp [castRayGo, hdist, hin]

/-- Witness for the amended C1: in the 1×1 wall scene a ray whose tip sits in
the wall cell stops at once with the current tip, while in the 1×1 empty scene
a tip in an outside cell makes the loop continue with the stepped ray. -/
theorem castRay_stop_conditions_witness :
    castRayGo sceneWall (⟨1/4, 1/2⟩ : Vector2 ℚ) (3 + 1) ⟨1/4, 1/2⟩ ⟨1/2, 1/2⟩
        = some ⟨1/2, 1/2⟩ ∧
    castRayGo scene1 (⟨5/2, 1/2⟩ : Vector2 ℚ) (5 + 1) ⟨5/2, 1/2⟩ ⟨7/2, 1/2⟩
        = castRayGo scene1 (⟨5/2, 1/2⟩ : Vector2 ℚ) 5 ⟨7/2, 1/2⟩
            (rayStep (⟨5/2, 1/2⟩ : Vector2 ℚ) ⟨7/2, 1/2⟩) :=
  ⟨(castRay_stop_conditions sceneWall ⟨1/4, 1/2⟩ 3 ⟨1/4, 1/2⟩ ⟨1/2, 1/2⟩
      (by with_unfolding_all decide)).1
      (by with_unfolding_all decide) (by with_unfolding_all decide),
   (castRay_stop_conditions scene1 ⟨5/2, 1/2⟩ 5 ⟨5/2, 1/2⟩ ⟨7/2, 1/2⟩
      (by with_unfolding_all decide)).2
      (by with_unfolding_all decide)⟩

/-- Counterexample to claim C2: for the degenerate starting pair
`p1 = p2 = (1/2, 1/2)` inside the 1×1 empty scene, `castRay` does not
terminate within the claimed iteration bound (or any other): the state is a
fixed point of the loop, so even `3·10⁸` iterations never exit. -/
theorem castRay_nontermination_counterexample :
    insideScene scene1 (⟨1/2, 1/2⟩ : Vector2 ℚ) = true ∧
    castRay scene1 300000000 (⟨1/2, 1/2⟩ : Vector2 ℚ) ⟨1/2, 1/2⟩ = none :=
  ⟨by with_unfolding_all decide, castRayGo_stuck_empty 300000000⟩

/-- Claim C2 (amended): for every scene and every starting pair with
`p1 ≠ p2`, `castRay` terminates within `3·10⁸` loop passes (a bound of the
order `farClip / EPS`, with `EPS` the minimum per-pass grid-crossing
increment of the stepper): the loop exits rather than running out of fuel. -/
theorem castRay_terminates (scene : Scene) (p1 p2 : Vector2 ℚ) (h : p1 ≠ p2) :
    castRay scene 300000000 p1 p2 ≠ none := by
  have hne : (p2.x - p1.x ≠ 0) ∨ (p2.y - p1.y ≠ 0) := by
    by_contra hc
    push_neg at hc
    apply h
    obtain ⟨x1, y1⟩ := p1
    obtain ⟨x2, y2⟩ := p2
    simp only [Vector2.mk.injEq]
    simp only at hc
    constructor
    · linarith [hc.1]
    · linarith [hc.2]
  have hstart : p1.sqrDistanceTo p1 < FAR_CLIPPING_PLANE ^ 2 := by
    simp only [Vector2.sqrDistanceTo, Vector2.sub, Vector2.sqrLength, FAR_CLIPPING_PLANE]
    norm_num
  show castRayGo scene p1 (299999999 + 1) p1 p2 ≠ none
  rw [castRayGo_succ_eq, if_pos hstart]
  by_cases hhit : (insideScene scene (hittingCell p1 p2)
      && !(sceneCell scene ⌊(hittingCell p1 p2).x⌋ ⌊(hittingCell p1 p2).y⌋
          == some Cell.empty)) = true
  · rw [if_pos hhit]
    simp
  · rw [if_neg hhit]
    have hadv := rayStep_advances p1 p2 (sameDir_self _) (sameDir_self _) hne
    apply castRayGo_exits scene p1 hne 299999999 p2 (rayStep p1 p2)
      hadv.1 hadv.2.1 (alignDir_self _) (alignDir_self _) hadv.2.2
    have h1 := abs_nonneg (p2.x - p1.x)
    have h2 := abs_nonneg (p2.y - p1.y)
    rw [EPS]
    push_cast
    linarith

/-- Witness for the amended C2: a concrete nondegenerate pair in the 1×1
empty scene, for which the cast exits within the fuel bound. -/
theorem castRay_terminates_witness :
    ((⟨1/2, 1/2⟩ : Vector2 ℚ) ≠ ⟨1/2, 3/4⟩) ∧
      castRay scene1 300000000 (⟨1/2, 1/2⟩ : Vector2 ℚ) ⟨1/2, 3/4⟩ ≠ none :=
  ⟨by with_unfolding_all decide,
   castRay_terminates scene1 ⟨1/2, 1/2⟩ ⟨1/2, 3/4⟩ (by with_unfolding_all decide)⟩

end Raycasting
